import Mathlib

/-!
Verification of the VobSub subtitle decoder (`oc_tools/scripts/vobsub.py`).

This file is a shallow embedding of the decoding core of `vobsub.py`:
the MPEG-PS fragment assembler, the control-header interpreter, the RLE
bitmap decoder and the palette/alpha compositor, together with theorems
settling the specification claims about them.

Modelling conventions:
* the `.sub` byte stream is a `List ℕ` of byte values, indexed from the
  decoder's base offset (the `IoWrapper` base);
* reads past the end of the stream model Python's `struct.error` on a
  short read, and a seek to a negative absolute position models the
  exception `IoWrapper.seek` would raise; both are `VErr.readOOB`;
* Python `assert` failures and other exceptions are `Except.error`
  values of the `VErr` enumeration;
* Python 3 `/` on integers is float division.  At line
  `ofs = (next_ofs / 0x800 + 1) * 0x800` the result is the float
  `next_ofs + 0x800` exactly (for any realistic `next_ofs < 2^52` the
  IEEE operations are exact), and the following
  `logger.warning(f"... {ofs:08x}")` raises `ValueError`, because format
  code `x` is invalid for a float.  The model makes that branch return
  `VErr.floatHexFormat (next_ofs + 0x800)`, recording the value the
  code computed before raising;
* loops are modelled with fuel that provably exceeds the number of
  iterations the Python loop can make; running out of fuel is
  `VErr.fuelOut`, and for the duration-chain loop exhausting the fuel
  (`VErr.chainCycle`) corresponds to the Python loop not terminating.
-/

/-- Errors: each constructor corresponds to one way the Python decoder
can raise (or, for `chainCycle`, hang). -/
inductive VErr where
  /-- short read (`struct.error`) or negative seek -/
  | readOOB : VErr
  /-- `assert handle.read_u32() == 0x000001BA` fails -/
  | badPackStart : VErr
  /-- `assert handle.read_u32() == 0x000001BD` fails -/
  | badPesStart : VErr
  /-- `assert ctrl_size >= 0, "Invalid control buffer size"` fails -/
  | negCtrlSize : VErr
  /-- `ctrl_header` is still `None`: `AttributeError` on use -/
  | attrErrorNone : VErr
  /-- float computed for `ofs`, then `f"{ofs:08x}"` raises `ValueError`;
      the payload is the exact value of the float -/
  | floatHexFormat : ℤ → VErr
  /-- fuel exhausted (the Python loop provably iterates fewer times) -/
  | fuelOut : VErr
  /-- the duration-chain loop cycles: Python loops forever -/
  | chainCycle : VErr
  /-- `NameError`: `width`/`height`/`even_ofs`/`odd_ofs` never assigned -/
  | nameErrorUnset : VErr
  /-- `assert size_even > 0 and size_odd > 0` fails -/
  | corruptBufferOfs : VErr
  /-- `np.zeros` called with a negative element count -/
  | npNegSize : VErr
  /-- numpy write or read at an index outside the pixel buffer -/
  | npIndexOOB : VErr
  /-- `nibbles[...]` list access out of range (`IndexError`) -/
  | nibbleOOB : VErr
  /-- `src[...]` bytes access out of range (`IndexError`) -/
  | srcIndexOOB : VErr
  /-- `idx.palette[...]` lookup out of range (`IndexError`) -/
  | palOOB : VErr
  /-- a decoded pixel index outside `{0,1,2,3}` hits numpy fancy
      indexing out of range -/
  | pixelOOB : VErr
  /-- float division by zero (`width == 0` in the line-feed fallback) -/
  | divByZero : VErr
deriving DecidableEq, Repr

/-- The `.sub` byte source seen through `IoWrapper`: a total size and
the byte value at each position below it. -/
structure ByteStream where
  size : ℕ
  byteAt : ℕ → ℕ

/-- `IoWrapper.read_u8` via `seek`: error on a negative position or a
read past the end of the stream. -/
def readU8 (s : ByteStream) (pos : ℤ) : Except VErr ℕ :=
  if 0 ≤ pos ∧ pos < (s.size : ℤ) then .ok (s.byteAt pos.toNat)
  else .error .readOOB

/-- `IoWrapper.read_u16` (big endian). -/
def readU16 (s : ByteStream) (pos : ℤ) : Except VErr ℕ := do
  let a ← readU8 s pos
  let b ← readU8 s (pos + 1)
  pure ((a <<< 8) ||| b)

/-- `IoWrapper.read_u32` (big endian). -/
def readU32 (s : ByteStream) (pos : ℤ) : Except VErr ℕ := do
  let a ← readU16 s pos
  let b ← readU16 s (pos + 2)
  pure ((a <<< 16) ||| b)

/-- `IoWrapper.read_u8` on the in-memory control-header buffer (a
`BytesIO` of the assembled bytes). -/
def hdrU8 (h : List ℕ) (pos : ℤ) : Except VErr ℕ :=
  if 0 ≤ pos then
    match h[pos.toNat]? with
    | some b => .ok b
    | none => .error .readOOB
  else .error .readOOB

/-- `IoWrapper.read_u16` on the control-header buffer (big endian). -/
def hdrU16 (h : List ℕ) (pos : ℤ) : Except VErr ℕ := do
  let a ← hdrU8 h pos
  let b ← hdrU8 h (pos + 1)
  pure ((a <<< 8) ||| b)

/-- One RGB palette entry (`Color` in the source). -/
structure Color where
  red : ℕ
  green : ℕ
  blue : ℕ
deriving DecidableEq, Repr

/-- A 4-entry array such as `pal`, `alpha`, `alpha_update` in
`decode_vobsub_picture` (all initialised to `[0, 0, 0, 0]`). -/
structure Quad where
  a0 : ℕ
  a1 : ℕ
  a2 : ℕ
  a3 : ℕ
deriving DecidableEq, Repr

/-- Indexing a `Quad` like the Python 4-element list. -/
def Quad.get (q : Quad) : Fin 4 → ℕ
  | 0 => q.a0
  | 1 => q.a1
  | 2 => q.a2
  | 3 => q.a3

/-- An RGBA sample of the output image. -/
abbrev Rgba := ℕ × ℕ × ℕ × ℕ

/-! ## Fragment assembler (`decode_vobsub_picture`, main packet loop) -/

/-- The fields parsed from one MPEG-PS pack + PES packet header,
lines 304-342 of the source.  `afterOfs` is the value of `ofs` after
skipping the stream-id byte, `headerSize` the corresponding
`ofs - start_ofs`. -/
structure PacketHead where
  nextOfs : ℕ
  packHeaderSize : ℕ
  headerSize : ℕ
  firstPack : Bool
  ptsLength : ℕ
  pesLength : ℕ
  afterOfs : ℕ
deriving DecidableEq, Repr

/-- Parse the pack header, PES start code, PES length, first-pack flag
and PTS length at `start`.  The commented-out stream-id read in the
source performs no read, so it cannot fail. -/
def parsePacketHead (stream : ByteStream) (start : ℕ) : Except VErr PacketHead := do
  let m ← readU32 stream start
  if m ≠ 0x000001BA then throw .badPackStart else
  let stuffB ← readU8 stream (start + 13)
  let stuff := stuffB &&& 7
  let p := start + 14 + stuff
  let m2 ← readU32 stream p
  if m2 ≠ 0x000001BD then throw .badPesStart else
  let len ← readU16 stream (p + 4)
  let fpB ← readU8 stream (p + 7)
  let pts ← readU8 stream (p + 8)
  let ph : PacketHead := { nextOfs := p + 6 + len
                           packHeaderSize := p + 6 - start
                           headerSize := p + 10 + pts - start
                           firstPack := fpB &&& 0x80 == 0x80
                           ptsLength := pts
                           pesLength := len
                           afterOfs := p + 10 + pts }
  pure ph

/-- The mutable state of the fragment-assembly loop.  `ctrlHeader` is
`none` while the Python variable `ctrl_header` is still `None`. -/
structure AsmState where
  ofs : ℕ
  ctrlOfs : ℤ
  ctrlOfsRel : ℕ
  rleSize : ℤ
  rleBufferFound : ℤ
  ctrlSize : ℤ
  ctrlHeaderCopied : ℕ
  ctrlHeader : Option (List ℕ)
  firstPackFound : Bool
  rleFragments : List (ℕ × ℤ)
deriving DecidableEq, Repr

/-- Initial values of the loop variables (lines 287-299). -/
def asmInit : AsmState :=
  { ofs := 0
    ctrlOfs := -1
    ctrlOfsRel := 0
    rleSize := 0
    rleBufferFound := 0
    ctrlSize := -1
    ctrlHeaderCopied := 0
    ctrlHeader := none
    firstPackFound := false
    rleFragments := [] }

/-- The control-header copy loop (lines 377-381):
`for i in range(diff): if ctrl_header_copied < ctrl_size: ...`.
`copiedInit` is the snapshot `copied` taken before the loop; the byte
is read before `ctrl_header.write` runs, so a read error precedes the
`AttributeError` a `None` buffer would raise. -/
def copyCtrl (stream : ByteStream) (ctrlOfs : ℤ) (copiedInit : ℕ) (ctrlSize : ℤ) :
    ℕ → ℕ → ℕ → Option (List ℕ) → Except VErr (ℕ × Option (List ℕ))
  | 0, _, copied, buf => .ok (copied, buf)
  | n + 1, i, copied, buf =>
    if (copied : ℤ) < ctrlSize then do
      let b ← readU8 stream (ctrlOfs + i + copiedInit)
      match buf with
      | none => throw .attrErrorNone
      | some l =>
          copyCtrl stream ctrlOfs copiedInit ctrlSize n (i + 1) (copied + 1)
            (some (l ++ [b]))
    else copyCtrl stream ctrlOfs copiedInit ctrlSize n (i + 1) copied buf

/-- One iteration of the packet loop (lines 301-395). -/
def asmIter (stream : ByteStream) (st : AsmState) : Except VErr AsmState := do
  let ph ← parsePacketHead stream st.ofs
  let (st1, headerSize, ofs1) ←
    if ph.firstPack ∧ 5 ≤ ph.ptsLength then do
      let size ← readU16 stream ph.afterOfs
      let rel ← readU16 stream (ph.afterOfs + 2)
      let ctrlSize : ℤ := (size : ℤ) - rel - 2
      if ctrlSize < 0 then throw .negCtrlSize else
      let stN := { st with
        rleSize := (rel : ℤ) - 2
        ctrlSize := ctrlSize
        ctrlHeader := some ([] : List ℕ)
        ctrlOfsRel := rel
        ctrlOfs := (rel : ℤ) + (ph.afterOfs + 2)
        firstPackFound := true }
      pure (stN, ph.headerSize + 4, ph.afterOfs + 4)
    else if st.firstPackFound then
      pure ({ st with ctrlOfs := st.ctrlOfs + ph.headerSize },
            ph.headerSize, ph.afterOfs)
    else
      -- "Invalid fragment skipped": warning only
      pure (st, ph.headerSize, ph.afterOfs)
  let diffRaw : ℤ := (ph.nextOfs : ℤ) - st1.ctrlOfs - st1.ctrlHeaderCopied
  let diff : ℤ := if diffRaw < 0 then 0 else diffRaw
  let (copied, buf) ← copyCtrl stream st1.ctrlOfs st1.ctrlHeaderCopied
      st1.ctrlSize diff.toNat 0 st1.ctrlHeaderCopied st1.ctrlHeader
  let fragLen : ℤ := (ph.pesLength : ℤ) - headerSize - diff + ph.packHeaderSize
  let st2 := { st1 with
    ctrlHeaderCopied := copied
    ctrlHeader := buf
    rleFragments := st1.rleFragments ++ [(ofs1, fragLen)]
    rleBufferFound := st1.rleBufferFound + fragLen }
  if (copied : ℤ) ≠ st2.ctrlSize ∧ (ph.nextOfs : ℕ) % 0x800 ≠ 0 then
    -- `ofs = (next_ofs / 0x800 + 1) * 0x800` is float division; the
    -- f-string hex format of the resulting float raises ValueError.
    throw (.floatHexFormat ((ph.nextOfs : ℤ) + 0x800))
  else
    pure { st2 with ofs := ph.nextOfs }

/-- The packet loop with fuel.  `ofs` strictly increases by at least 20
per iteration and the guard requires `ofs < stream.size`, so
`stream.size + 1` units of fuel always suffice. -/
def asmLoop (stream : ByteStream) : ℕ → AsmState → Except VErr AsmState
  | 0, _ => throw .fuelOut
  | fuel + 1, st =>
    if st.ofs < stream.size ∧
        ((st.ctrlHeaderCopied : ℤ) < st.ctrlSize ∨ st.ctrlSize = -1) then do
      asmLoop stream fuel (← asmIter stream st)
    else pure st

/-- The shortfall padding (lines 397-402): pad with `0xFF` "break"
commands when fewer than `ctrl_size` bytes were copied.  When more were
copied (possible after a repeated first-pack packet) `range` is empty
and nothing is appended. -/
def padCtrl (ctrlSize : ℤ) (copied : ℕ) (l : List ℕ) : List ℕ :=
  if (copied : ℤ) ≠ ctrlSize then
    l ++ List.replicate (ctrlSize - copied).toNat 0xFF
  else l

/-- Result of fragment assembly, consumed by the control-header
interpreter. -/
structure AsmOut where
  ctrlHeader : List ℕ
  ctrlOfsRel : ℕ
  ctrlSize : ℤ
  rleSize : ℤ
  rleFragments : List (ℕ × ℤ)
  ctrlHeaderCopied : ℕ
deriving DecidableEq, Repr

/-- Fragment assembly: the packet loop, then padding; a still-`None`
control header is the `AttributeError` Python raises at
`ctrl_header.seek(0)`. -/
def fragmentAssemble (stream : ByteStream) : Except VErr AsmOut := do
  let st ← asmLoop stream (stream.size + 1) asmInit
  match st.ctrlHeader with
  | none => throw .attrErrorNone
  | some l =>
      let out : AsmOut := { ctrlHeader := padCtrl st.ctrlSize st.ctrlHeaderCopied l
                            ctrlOfsRel := st.ctrlOfsRel
                            ctrlSize := st.ctrlSize
                            rleSize := st.rleSize
                            rleFragments := st.rleFragments
                            ctrlHeaderCopied := st.ctrlHeaderCopied }
      pure out

/-! ## Concrete input streams used by the claim theorems -/

/-- A 37-byte stream: one pack/PES packet with the first-pack flag,
`size = 10`, `ctrl_ofs_rel = 4` (so `ctrl_size = 4`, `rle_size = 2`,
`ctrl_ofs = 35`), PES length `0x11` (so `next_ofs = 37`, not
`0x800`-aligned), and only 2 of the 4 control bytes inside the packet. -/
def c1bytes : List ℕ :=
  [0x00, 0x00, 0x01, 0xBA, 0, 0, 0, 0, 0, 0, 0, 0, 0,
   0x00,
   0x00, 0x00, 0x01, 0xBD,
   0x00, 0x11,
   0x00, 0x80, 0x05, 0, 0, 0, 0, 0, 0x00,
   0x00, 0x0A, 0x00, 0x04,
   0x00, 0x00, 0xAA, 0xBB]

/-- Same shape as `c1stream` (different payload byte): a stream whose
only oddity is the misaligned next-packet offset. -/
def c2bytes : List ℕ :=
  [0x00, 0x00, 0x01, 0xBA, 0, 0, 0, 0, 0, 0, 0, 0, 0,
   0x00,
   0x00, 0x00, 0x01, 0xBD,
   0x00, 0x11,
   0x00, 0x80, 0x05, 0, 0, 0, 0, 0, 0x00,
   0x00, 0x0A, 0x00, 0x04,
   0x00, 0x00, 0xAA, 0xCC]

/-! ## Control header interpreter (lines 407-546) -/

/-- State of the control-header command scan.  `width`, `height`,
`xOfs`, `yOfs`, `evenOfs`, `oddOfs` are `none` until commands 5/6
assign the corresponding Python locals (using them while unassigned is
a `NameError`). -/
structure ScanState where
  index : ℤ
  endSeq : ℤ
  pal : Quad
  alpha : Quad
  alphaUpdate : Quad
  alphaSum : ℕ
  alphaUpdateSum : ℕ
  delay : ℤ
  colAlphaUpdate : Bool
  xOfs : Option ℤ
  yOfs : Option ℤ
  width : Option ℤ
  height : Option ℤ
  evenOfs : Option ℤ
  oddOfs : Option ℤ
deriving DecidableEq, Repr

/-- Clamping of an end-sequence pointer (lines 421-423 and 517-521):
out of `[0, ctrl_size]` means "no end time", clamp to `ctrl_size`. -/
def clampEndSeq (ctrlSize e : ℤ) : ℤ :=
  if e < 0 ∨ ctrlSize < e then ctrlSize else e

/-- One iteration of the command scan (lines 426-528).  Returns the
new state and whether the loop `break`s (command `0xFF`). -/
def scanStep (hdr : List ℕ) (rel : ℕ) (ctrlSize : ℤ) (s : ScanState) :
    Except VErr (ScanState × Bool) := do
  let cmd ← hdrU8 hdr s.index
  let i : ℤ := s.index + 1
  match cmd with
  | 0 => pure ({ s with index := i }, false)       -- forced (?)
  | 1 => pure ({ s with index := i }, false)       -- start display
  | 3 => do                                        -- palette info
      let t1 ← hdrU8 hdr i
      let t2 ← hdrU8 hdr (i + 1)
      let s' := { s with
        index := i + 2
        pal := { a0 := t2 &&& 0x0F, a1 := t2 >>> 4
                 a2 := t1 &&& 0x0F, a3 := t1 >>> 4 } }
      pure (s', false)
  | 4 => do                                        -- alpha info
      let t1 ← hdrU8 hdr i
      let t2 ← hdrU8 hdr (i + 1)
      let al : Quad := { a0 := t2 &&& 0x0F, a1 := t2 >>> 4
                         a2 := t1 &&& 0x0F, a3 := t1 >>> 4 }
      let s' := { s with
        index := i + 2
        alpha := al
        alphaSum := s.alphaSum + ((al.a0 &&& 0xFF) + (al.a1 &&& 0xFF)
          + (al.a2 &&& 0xFF) + (al.a3 &&& 0xFF)) }
      pure (s', false)
  | 5 => do                                        -- coordinates
      let ta ← hdrU8 hdr i
      let tb ← hdrU8 hdr (i + 1)
      let tc ← hdrU8 hdr (i + 2)
      let td ← hdrU8 hdr (i + 3)
      let te ← hdrU8 hdr (i + 4)
      let tf ← hdrU8 hdr (i + 5)
      let x : ℤ := (ta <<< 4) ||| (tb >>> 4)
      let y : ℤ := (td <<< 4) ||| (te >>> 4)
      let s' := { s with
        index := i + 6
        xOfs := some x
        yOfs := some y
        width := some ((((tb &&& 0xF) <<< 8) ||| tc : ℕ) - x + 1)
        height := some ((((te &&& 0xF) <<< 8) ||| tf : ℕ) - y + 1) }
      pure (s', false)
  | 6 => do                                        -- offset to RLE buffer
      let e ← hdrU16 hdr i
      let o ← hdrU16 hdr (i + 2)
      let s' := { s with
        index := i + 4
        evenOfs := some ((e : ℤ) - 4)
        oddOfs := some ((o : ℤ) - 4) }
      pure (s', false)
  | 7 => do                                        -- color/alpha update
      let u1 ← hdrU8 hdr (i + 10)
      let u2 ← hdrU8 hdr (i + 11)
      let upd : Quad := { a0 := u2 &&& 0x0F, a1 := u2 >>> 4
                          a2 := u1 &&& 0x0F, a3 := u1 >>> 4 }
      let updSum := (upd.a0 &&& 0xFF) + (upd.a1 &&& 0xFF)
        + (upd.a2 &&& 0xFF) + (upd.a3 &&& 0xFF)
      let s1 := { s with colAlphaUpdate := true, alphaUpdate := upd
                         alphaUpdateSum := updSum }
      let s2 ←
        if s.alphaSum < updSum then do
          -- "only use more opaque colors": note the source assigns
          -- `alpha_update = alpha[:]`, it does NOT copy the parsed
          -- update into `alpha`.
          let p1 ← hdrU8 hdr (i + 8)
          let p2 ← hdrU8 hdr (i + 9)
          let s2 := { s1 with
            alphaSum := updSum
            alphaUpdate := s.alpha
            pal := { a0 := p2 &&& 0x0F, a1 := p2 >>> 4
                     a2 := p1 &&& 0x0F, a3 := p1 >>> 4 } }
          pure s2
        else pure s1
      -- "search end sequence"
      let idx2 := s2.endSeq
      let d ← hdrU16 hdr idx2
      let e2 ← hdrU16 hdr (idx2 + 2)
      let s3 := { s2 with
        delay := (d : ℤ) * 1024
        endSeq := clampEndSeq ctrlSize ((e2 : ℤ) - rel - 2)
        index := idx2 + 4 }
      pure (s3, false)
  | 0xFF => pure ({ s with index := i }, true)     -- end
  | _ => pure ({ s with index := i }, false)       -- unknown: warning only

/-- The command-scan loop (`while index < end_seq_ofs`).  `index`
strictly increases and stays below `endSeq ≤ ctrlSize`, so
`ctrlSize.toNat + 2` units of fuel always suffice. -/
def scanLoop (hdr : List ℕ) (rel : ℕ) (ctrlSize : ℤ) :
    ℕ → ScanState → Except VErr ScanState
  | 0, _ => throw .fuelOut
  | fuel + 1, s =>
    if s.index < s.endSeq then do
      let (s', brk) ← scanStep hdr rel ctrlSize s
      if brk then pure s' else scanLoop hdr rel ctrlSize fuel s'
    else pure s

/-- Initial interpreter state (lines 407-413). -/
def scanInit (e : ℤ) : ScanState :=
  { index := 2
    endSeq := e
    pal := ⟨0, 0, 0, 0⟩
    alpha := ⟨0, 0, 0, 0⟩
    alphaUpdate := ⟨0, 0, 0, 0⟩
    alphaSum := 0
    alphaUpdateSum := 0
    delay := -1
    colAlphaUpdate := false
    xOfs := none
    yOfs := none
    width := none
    height := none
    evenOfs := none
    oddOfs := none }

/-- Full control-header command scan: read the end-sequence pointer at
offset 0, clamp it, then run the command loop from `index = 2`. -/
def ctrlScanFull (hdr : List ℕ) (rel : ℕ) (ctrlSize : ℤ) :
    Except VErr ScanState := do
  let w ← hdrU16 hdr 0
  let e := clampEndSeq ctrlSize ((w : ℤ) - rel - 2)
  scanLoop hdr rel ctrlSize (ctrlSize.toNat + 2) (scanInit e)

/-- The duration-chain loop (lines 532-540): follow chained
(delay, next-pointer) pairs until the pointer stops moving.  An index
value can repeat only by entering a cycle, in which case the Python
loop never terminates; the fuel passed by `resolveDelay` exceeds the
number of distinct readable positions, so running out of fuel is
exactly the nontermination case (`VErr.chainCycle`). -/
def chainLoop (hdr : List ℕ) (rel : ℕ) :
    ℕ → ℤ → ℤ → ℤ → Except VErr ℤ
  | 0, _, _, _ => throw .chainCycle
  | fuel + 1, index, next, delay =>
    if next ≠ index then do
      let d ← hdrU16 hdr next
      let e ← hdrU16 hdr (next + 2)
      chainLoop hdr rel fuel next ((e : ℤ) - rel - 2) ((d : ℤ) * 10)
    else pure delay

/-- Lines 530-546: if the final end-sequence pointer differs from
`ctrl_size`, chase the chain (delay ×10); otherwise only warn
"Duration information not found" and keep the scan's `delay`. -/
def resolveDelay (hdr : List ℕ) (rel : ℕ) (ctrlSize : ℤ) (s : ScanState) :
    Except VErr ℤ :=
  if s.endSeq ≠ ctrlSize then
    chainLoop hdr rel (hdr.length + 3) (-1) s.endSeq s.delay
  else pure s.delay

/-- The caller (`main`, lines 662-668) emits an ASS event with
`end = start + delay` where `start` is the index timestamp in
milliseconds. -/
def eventEnd (startMs delay : ℤ) : ℤ := startMs + delay

/-- The control header used by the C4 theorem: end-sequence pointer
`0x0018` (→ offset 18 with `rel = 4`), command 4 with alpha bytes
`0x12 0x34`, then command 7 whose update alphas `0xFF 0xFF` sum to 60
(more opaque than 10, hence adopted) and palette bytes `0xAB 0xCD`;
at offset 18 a (delay, next-pointer) end sequence. -/
def c4hdr : List ℕ :=
  [0x00, 0x18,
   0x04, 0x12, 0x34,
   0x07, 0, 0, 0, 0, 0, 0, 0, 0, 0xAB, 0xCD, 0xFF, 0xFF,
   0x00, 0x02, 0x00, 0x18]

/-! ## RLE bitmap decoder (`decode_vobsub_line`, lines 207-281) -/

/-- State of the `decode_vobsub_line` loop.  `writes` records the
assignments `trg[trg_ofs + x] = col` in reverse-chronological order
(most recent first); `sumPixels` is a rational because the line-feed
fallback branch assigns it the result of Python 3 float division. -/
structure LineState where
  index : ℕ
  sumPixels : ℚ
  trgOfs : ℤ
  x : ℤ
  writes : List (ℤ × ℕ)
deriving DecidableEq, Repr

/-- The run-emission loop (lines 274-281): write `col` into
`trg[trg_ofs + x]` `n` times, wrapping to the next interlaced row
(`trg_ofs += 2*width`, `x = 0`) whenever `x` reaches `width`, and
consuming a nibble-alignment pad when `index` is odd at a wrap. -/
def writeRun (width : ℤ) (col : ℕ) : ℕ → LineState → LineState
  | 0, s => s
  | n + 1, s =>
    let s1 := { s with writes := (s.trgOfs + s.x, col) :: s.writes }
    if s1.x + 1 ≥ width then
      writeRun width col n
        { s1 with
          trgOfs := s1.trgOfs + 2 * width
          x := 0
          index := if s1.index % 2 = 1 then s1.index + 1 else s1.index }
    else
      writeRun width col n { s1 with x := s1.x + 1 }

/-- Nibble access `nibbles[j] & 0xFF` (`IndexError` out of range). -/
def nibGet (nibbles : List ℕ) (j : ℕ) : Except VErr ℕ :=
  match nibbles[j]? with
  | some v => .ok (v &&& 0xFF)
  | none => .error .nibbleOOB

/-- Common tail of one loop iteration: `col = tmp & 0x3`,
`sum_pixels += length`, then the run-emission loop.  `i` is the final
nibble index of the code. -/
def finishRun (width : ℤ) (len : ℤ) (col : ℕ) (i : ℕ) (s : LineState) :
    LineState :=
  writeRun width col len.toNat
    { s with index := i, sumPixels := s.sumPixels + (len : ℚ) }

/-- One iteration of the `decode_vobsub_line` while-loop
(lines 227-281), assuming the loop guard holds.  Mirrors the 1/2/3/4
nibble code forms and the explicit line-feed handling.  In the
line-feed fallback branch (row already full or pixel budget reached)
the source computes `sum_pixels = ((trg_ofs / width) / 2) * width`
with Python 3 float division; it is modelled with exact rational
division (`ZeroDivisionError` for `width = 0`).  For `width ≥ 1` that
branch is unreachable (`length = width - x ≥ 1` and the loop guard
gives `sum_pixels < max_pixels`), so the float/rational difference
never surfaces there. -/
def lineBody (nibbles : List ℕ) (width maxPixels : ℤ) (s : LineState) :
    Except VErr LineState := do
  let t0 ← nibGet nibbles s.index
  let i0 := s.index + 1
  if t0 = 0 then
    -- three or four nibble code
    let t1 ← nibGet nibbles i0
    let i1 := i0 + 1
    if t1 &&& 0xC ≠ 0 then
      -- three byte code
      let t2 ← nibGet nibbles i1
      let i2 := i1 + 1
      pure (finishRun width (((t1 <<< 2) ||| (t2 >>> 2) : ℕ) : ℤ)
        (t2 &&& 0x3) i2 s)
    else
      -- line feed or four nibble code
      let t2 ← nibGet nibbles i1
      let t3 ← nibGet nibbles (i1 + 1)
      let i3 := i1 + 2
      let len : ℕ := (t1 <<< 6) ||| (t2 <<< 2) ||| (t3 >>> 2)
      if len = 0 then
        -- line feed
        let lenZ : ℤ := width - s.x
        if lenZ ≤ 0 ∨ (maxPixels : ℚ) ≤ s.sumPixels then
          if width = 0 then throw .divByZero else
          let trg := s.trgOfs + 2 * width
          let s1 := { s with
            trgOfs := trg
            sumPixels := ((trg : ℚ) / (width : ℚ) / 2) * (width : ℚ)
            x := 0 }
          let i4 := if i3 % 2 = 1 then i3 + 1 else i3
          pure (finishRun width 0 (t3 &&& 0x3) i4 s1)
        else
          let i4 := if i3 % 2 = 1 then i3 + 1 else i3
          pure (finishRun width lenZ (t3 &&& 0x3) i4 s)
      else
        pure (finishRun width (len : ℤ) (t3 &&& 0x3) i3 s)
  else
    -- one or two nibble code
    let len : ℕ := t0 >>> 2
    if len = 0 then
      -- two nibble code
      let t1 ← nibGet nibbles i0
      let i1 := i0 + 1
      pure (finishRun width (((t0 <<< 2) ||| (t1 >>> 2) : ℕ) : ℤ)
        (t1 &&& 0x3) i1 s)
    else
      pure (finishRun width (len : ℤ) (t0 &&& 0x3) i0 s)

/-- The `decode_vobsub_line` while-loop.  `index` strictly increases
each iteration and the guard requires `index < nibbles.length`, so
`nibbles.length + 1` units of fuel always suffice. -/
def lineLoop (nibbles : List ℕ) (width maxPixels : ℤ) :
    ℕ → LineState → Except VErr LineState
  | 0, _ => throw .fuelOut
  | fuel + 1, s =>
    if s.index < nibbles.length ∧ s.sumPixels < (maxPixels : ℚ) then do
      lineLoop nibbles width maxPixels fuel
        (← lineBody nibbles width maxPixels s)
    else pure s

/-- Initial state of one `decode_vobsub_line` call (lines 223-225). -/
def lineInit (trgOfs : ℤ) : LineState :=
  { index := 0, sumPixels := 0, trgOfs := trgOfs, x := 0, writes := [] }

/-- Run the decode loop over a prepared nibble list. -/
def runLine (nibbles : List ℕ) (width maxPixels trgOfs : ℤ) :
    Except VErr LineState :=
  lineLoop nibbles width maxPixels (nibbles.length + 1) (lineInit trgOfs)

/-- Python sequence access `src[j]` for a `bytes` value: a negative
index counts from the end; out of range raises `IndexError`. -/
def pyIndex (s : List ℕ) (j : ℤ) : Except VErr ℕ :=
  if 0 ≤ j then
    match s[j.toNat]? with
    | some b => .ok b
    | none => .error .srcIndexOOB
  else if (-j) ≤ (s.length : ℤ) then
    match s[s.length - (-j).toNat]? with
    | some b => .ok b
    | none => .error .srcIndexOOB
  else .error .srcIndexOOB

/-- The nibble pre-pass (lines 216-221): split `src_len` bytes starting
at `src_ofs` into high/low nibbles.  For `src_len ≤ 0` the nibble list
is empty (`[0] * (src_len * 2)` with a non-positive count). -/
def mkNibblesGo (src : List ℕ) (srcOfs : ℤ) :
    ℕ → ℤ → Except VErr (List ℕ)
  | 0, _ => .ok []
  | n + 1, i => do
    let b ← pyIndex src (srcOfs + i)
    let rest ← mkNibblesGo src srcOfs n (i + 1)
    pure ((((b &&& 0xFF) >>> 4)) :: ((b &&& 0xFF) &&& 0x0F) :: rest)

/-- `decode_vobsub_line` for one field: nibble pre-pass then loop.
The pixel writes are returned as a log (chronological order), applied
to the numpy buffer by `applyWrites`. -/
def decodeVobsubLine (src : List ℕ) (srcOfs srcLen : ℤ)
    (trgOfs width maxPixels : ℤ) : Except VErr LineState := do
  let nibbles ← mkNibblesGo src srcOfs srcLen.toNat 0
  runLine nibbles width maxPixels trgOfs

/-- The number of pixels written into raster row `r` (the index range
`[r*width, (r+1)*width)`) by a write log. -/
def rowCount (width r : ℤ) (writes : List (ℤ × ℕ)) : ℕ :=
  writes.countP fun p => decide (r * width ≤ p.1 ∧ p.1 < (r + 1) * width)

/-! ## Palette/alpha compositor and composed decode (lines 548-625) -/

/-- The alpha scaling at line 609: `(a * 0xFF) // 0xF`. -/
def alphaScale (a : ℕ) : ℕ := a * 0xFF / 0xF

/-- Line 603-604: `invert` swaps `pal[1]` and `pal[3]` before the
palette maps are built. -/
def invertPal (invert : Bool) (pal : Quad) : Quad :=
  if invert then ⟨pal.a0, pal.a3, pal.a2, pal.a1⟩ else pal

/-- Lines 606-608: build the four-entry palette colour maps by looking
up `idx.palette[pal[c]]` for `c = 0..3`; an entry beyond the palette
length raises `IndexError` (pal entries are nibbles, hence never
negative). -/
def palLookup (palette : List Color) (pal : Quad) :
    Option (Color × Color × Color × Color) := do
  let c0 ← palette[pal.a0]?
  let c1 ← palette[pal.a1]?
  let c2 ← palette[pal.a2]?
  let c3 ← palette[pal.a3]?
  pure (c0, c1, c2, c3)

/-- Map a pixel-index list through an action, collecting results
(models the numpy fancy-indexing `palmap_r[decoded_pixels]` etc.). -/
def mapPix (f : ℕ → Except VErr Rgba) : List ℕ → Except VErr (List Rgba)
  | [] => .ok []
  | p :: r =>
    match f p with
    | .error e => .error e
    | .ok y =>
      match mapPix f r with
      | .error e => .error e
      | .ok rest => .ok (y :: rest)

/-- Lines 603-620: palette-map construction, the transparent-entry-0
colour substitution (lines 611-614) and the per-pixel RGBA lookup.
The numpy buffers are `int8`, but `bytes(...)` reads their raw memory,
so each emitted byte equals the value modulo 256 = the value itself
(all values are ≤ 255). -/
def composite (palette : List Color) (pal alpha : Quad) (invert : Bool)
    (pixels : List ℕ) : Except VErr (List Rgba) :=
  match palLookup palette (invertPal invert pal) with
  | none => throw .palOOB
  | some (c0, c1, c2, c3) =>
    let a0 := alphaScale alpha.a0
    let k0 := if a0 = 0 then c3 else c0
    mapPix
      (fun p =>
        match p with
        | 0 => pure (k0.red, k0.green, k0.blue, a0)
        | 1 => pure (c1.red, c1.green, c1.blue, alphaScale alpha.a1)
        | 2 => pure (c2.red, c2.green, c2.blue, alphaScale alpha.a2)
        | 3 => pure (c3.red, c3.green, c3.blue, alphaScale alpha.a3)
        | _ => throw .pixelOOB)
      pixels

/-- Apply a chronological write log to the flat numpy pixel buffer of
`n` entries: a negative index wraps (numpy negative indexing), an index
out of `[-n, n)` raises `IndexError`. -/
def applyWrites (n : ℕ) : List ℕ → List (ℤ × ℕ) → Except VErr (List ℕ)
  | buf, [] => pure buf
  | buf, (p, c) :: rest =>
    if 0 ≤ p ∧ p < (n : ℤ) then
      applyWrites n (buf.set p.toNat c) rest
    else if -(n : ℤ) ≤ p ∧ p < 0 then
      applyWrites n (buf.set (n - (-p).toNat) c) rest
    else throw .npIndexOOB

/-- `handle.read(sz)` at absolute offset `ofs` (lines 573-575): a short
read returns the available bytes; a negative count reads to the end of
the stream. -/
def readBytesPy (stream : ByteStream) (ofs : ℕ) (sz : ℤ) : List ℕ :=
  let avail := stream.size - ofs
  let n := if sz < 0 then avail else min sz.toNat avail
  (List.range n).map fun k => stream.byteAt (ofs + k)

/-- `decode_vobsub_picture`: fragment assembly, control-header scan,
duration resolution, buffer-size computation and asserts, RLE buffer
concatenation, even/odd field decode, palette/alpha compositing.
`idxWidth`/`idxHeight` are the `.idx` frame size (used only in the
"Subpicture too large" warning, hence unused here); the `.idx` palette
is `palette`.  Returns the RGBA pixel list (row-major, the bytes PIL
receives) and the delay. -/
def decodeVobsubPicture (palette : List Color) (stream : ByteStream)
    (invert : Bool) : Except VErr (List Rgba × ℤ) := do
  let asm ← fragmentAssemble stream
  -- "RLE buffer size inconsistent": warning only
  let s ← ctrlScanFull asm.ctrlHeader asm.ctrlOfsRel asm.ctrlSize
  let delay ← resolveDelay asm.ctrlHeader asm.ctrlOfsRel asm.ctrlSize s
  -- lines 548-559: warnings only, but using an unassigned local is a
  -- NameError (no command 5 / no command 6 in the header)
  let width ← match s.width with
    | some w => pure w
    | none => throw .nameErrorUnset
  let height ← match s.height with
    | some h => pure h
    | none => throw .nameErrorUnset
  let evenOfs ← match s.evenOfs with
    | some e => pure e
    | none => throw .nameErrorUnset
  let oddOfs ← match s.oddOfs with
    | some o => pure o
    | none => throw .nameErrorUnset
  -- lines 562-569
  let sizeEven : ℤ := if evenOfs < oddOfs then oddOfs - evenOfs
    else asm.rleSize - evenOfs
  let sizeOdd : ℤ := if evenOfs < oddOfs then asm.rleSize - oddOfs
    else evenOfs - oddOfs
  if ¬(0 < sizeEven ∧ 0 < sizeOdd) then throw .corruptBufferOfs else
  -- lines 572-577
  let rleBuffer := asm.rleFragments.foldl
    (fun acc f => acc ++ readBytesPy stream f.1 f.2) []
  -- line 579
  let n : ℤ := width * height
  if n < 0 then throw .npNegSize else
  -- lines 582-601 (within-field write errors are applied per field)
  let ev ← decodeVobsubLine rleBuffer evenOfs sizeEven 0 width
    (width * (Int.fdiv height 2 + height % 2))
  let buf1 ← applyWrites n.toNat (List.replicate n.toNat 0) ev.writes.reverse
  let od ← decodeVobsubLine rleBuffer oddOfs sizeOdd width width
    (Int.fdiv height 2 * width)
  let pixels ← applyWrites n.toNat buf1 od.writes.reverse
  -- lines 603-625
  let rgba ← composite palette s.pal s.alpha invert pixels
  pure (rgba, delay)

/-- A complete, well-formed 58-byte stream: one packet containing the
full 23-byte control header (commands 1, 4, 5, 6, end sequence with
delay 3) and a 2-byte RLE buffer that decodes a 2×2 picture with pixel
indices `[1, 1, 2, 2]`. -/
def c6bytes : List ℕ :=
  [0x00, 0x00, 0x01, 0xBA, 0, 0, 0, 0, 0, 0, 0, 0, 0,
   0x00,
   0x00, 0x00, 0x01, 0xBD,
   0x00, 0x26,
   0x00, 0x80, 0x05, 0, 0, 0, 0, 0, 0x00,
   0x00, 0x1D, 0x00, 0x04,
   0x99, 0xAA,
   0x00, 0x19,
   0x01,
   0x04, 0xFF, 0xFF,
   0x05, 0x00, 0x00, 0x01, 0x00, 0x00, 0x01,
   0x06, 0x00, 0x04, 0x00, 0x05,
   0xFF,
   0x00, 0x03, 0x00, 0x19]

/-- A one-entry `.idx` palette (the C6 counterexample: not 16 entries). -/
def c6palette : List Color := [⟨9, 9, 9⟩]

/-- A 16-entry palette of black entries. -/
def palette16 : List Color := List.replicate 16 ⟨0, 0, 0⟩

/-- The stream for the C5 counterexample: two packets, both carrying
the first-pack flag.  Packet 1 (at 0) declares `ctrl_size = 100` with
`ctrl_ofs = 2031` and `next_ofs = 2048`, so 17 control bytes are copied
and the loop continues.  Packet 2 (at 2048) repeats the first-pack
flag, declaring `ctrl_size = 4` (and a control offset beyond its end,
so it contributes no further control bytes): the source resets
`ctrl_header` to a fresh buffer without resetting
`ctrl_header_copied` (still 17 > 4). -/
def c5byte (i : ℕ) : ℕ :=
  if i = 2 then 0x01 else if i = 3 then 0xBA else
  if i = 16 then 0x01 else if i = 17 then 0xBD else
  if i = 18 then 0x07 else if i = 19 then 0xEC else
  if i = 21 then 0x80 else if i = 22 then 0x05 else
  if i = 29 then 0x08 else if i = 30 then 0x36 else
  if i = 31 then 0x07 else if i = 32 then 0xD0 else
  if i = 2050 then 0x01 else if i = 2051 then 0xBA else
  if i = 2064 then 0x01 else if i = 2065 then 0xBD else
  if i = 2066 then 0x07 else if i = 2067 then 0xEC else
  if i = 2069 then 0x80 else if i = 2070 then 0x05 else
  if i = 2077 then 0x0B else if i = 2078 then 0xBE else
  if i = 2079 then 0x0B else if i = 2080 then 0xB8 else 0

def c5stream : ByteStream := ⟨2100, c5byte⟩

/-- `c1bytes` as a byte stream. -/
def c1stream : ByteStream := ⟨37, fun i => c1bytes.getD i 0⟩

/-- `c2bytes` as a byte stream. -/
def c2stream : ByteStream := ⟨37, fun i => c2bytes.getD i 0⟩

/-- `c6bytes` as a byte stream. -/
def c6stream : ByteStream := ⟨58, fun i => c6bytes.getD i 0⟩

/-! ## Definitions used by the claim theorems -/

/-- Invariant of the fragment-assembly loop: once a first packet has
declared `ctrl_size`, the copied count never exceeds it and the
buffer holds exactly the copied bytes; before that, nothing has been
copied and the sentinel values are in place. -/
def AsmInv (st : AsmState) : Prop :=
  (st.firstPackFound = true →
    0 ≤ st.ctrlSize ∧ (st.ctrlHeaderCopied : ℤ) ≤ st.ctrlSize ∧
    ∃ l, st.ctrlHeader = some l ∧ l.length = st.ctrlHeaderCopied) ∧
  (st.firstPackFound = false →
    st.ctrlHeaderCopied = 0 ∧ st.ctrlSize = -1 ∧ st.ctrlHeader = none)

/-- Invariant of the RLE decode loop: the horizontal cursor stays in
`[0, width)` and the write log is strictly decreasing (reverse
chronological order), all entries below the current cursor position. -/
def LineInv (width : ℤ) (s : LineState) : Prop :=
  0 ≤ s.x ∧ s.x < width ∧
  s.writes.Chain' (fun a b => b.1 < a.1) ∧
  ∀ p ∈ s.writes, p.1 < s.trgOfs + s.x

/-- Palette for the C8 counterexample: entry 1 red, entry 3 blue. -/
def c8palette : List Color :=
  ((List.replicate 16 ⟨0, 0, 0⟩).set 1 ⟨255, 0, 0⟩).set 3 ⟨0, 0, 255⟩

/-- Control header for the C10 witness: its end-sequence pointer reads
as 0, clamps to `ctrl_size`, and the first command is the end command
`0xFF`. -/
def c10hdr : List ℕ := [0x00, 0x00, 0xFF, 0xFF]

/-- The scan state `ctrlScanFull c10hdr 4 4` produces. -/
def c10state : ScanState := { scanInit 4 with index := 3 }

/-- The packet head of the single packet of `c6stream`. -/
def c6ph : PacketHead :=
  { nextOfs := 58, packHeaderSize := 20, headerSize := 29
    firstPack := true, ptsLength := 5, pesLength := 38, afterOfs := 29 }

/-- The assembler state after one iteration on `c6stream`. -/
def c5wit1 : AsmState :=
  { ofs := 58, ctrlOfs := 35, ctrlOfsRel := 4, rleSize := 2
    rleBufferFound := 2, ctrlSize := 23, ctrlHeaderCopied := 23
    ctrlHeader := some [0, 25, 1, 4, 255, 255, 5, 0, 0, 1, 0, 0, 1, 6,
      0, 4, 0, 5, 255, 0, 3, 0, 25]
    firstPackFound := true, rleFragments := [(33, 2)] }

/-! ## Claim C1 -/

/-- C1: claimed: on a packet whose control header is not fully copied
and whose computed next-packet offset is not `0x800`-aligned,
`decode_vobsub_picture` warns and continues from the smallest multiple
of `0x800` strictly greater than the packet end.  In fact the float
division at line 389 yields `next_ofs + 0x800` (here 2085, not the
sector boundary 2048) and formatting that float with `:08x` raises
`ValueError`: the assembler raises instead of continuing. -/
theorem c1_misaligned_offset_crashes :
    fragmentAssemble c1stream = .error (.floatHexFormat 2085) ∧
    (2085 : ℤ) % 0x800 ≠ 0 ∧ (2085 : ℤ) ≠ 2048 ∧
    (2048 : ℤ) % 0x800 = 0 ∧ (37 : ℤ) < 2048 := by
  refine ⟨rfl, by decide, by decide, by decide, by decide⟩

/-- C2: claimed: the decoder completes without raising on every input
whose only oddity has a documented fallback (misaligned offsets among
them).  `c2stream`'s only oddity is a misaligned next-packet offset,
yet the decode raises (the `ValueError` of the float hex format). -/
theorem c2_decode_raises_on_misaligned :
    decodeVobsubPicture palette16 c2stream false
      = .error (.floatHexFormat 2085) := by
  rfl

/-- C4: claimed: an adopted command-7 update (summed alpha 60 > 10)
makes the resolved alpha values those of the command-7 operands
(`15,15,15,15`).  In fact `alpha_update = alpha[:]` copies in the
wrong direction: the resolved alpha stays at the command-4 values
`4,3,2,1` (the palette operands are adopted). -/
theorem c4_cmd7_alpha_not_adopted :
    (ctrlScanFull c4hdr 4 22).toOption.map
        (fun s => (s.alpha, s.pal, s.alphaUpdate, s.alphaSum))
      = some (⟨4, 3, 2, 1⟩, ⟨13, 12, 11, 10⟩, ⟨4, 3, 2, 1⟩, 60) ∧
    (⟨4, 3, 2, 1⟩ : Quad) ≠ ⟨15, 15, 15, 15⟩ := by
  refine ⟨rfl, by decide⟩

set_option maxRecDepth 100000 in
/-- C5 counterexample: after a second packet carrying the first-pack
flag the copied count (17) exceeds the newly declared `ctrl_size` (4),
and the assembled control header has length 0, not `ctrl_size`. -/
theorem c5_counterexample :
    (fragmentAssemble c5stream).toOption.map
        (fun o => (o.ctrlHeaderCopied, o.ctrlSize, o.ctrlHeader.length))
      = some (17, 4, 0) ∧
    ¬((17 : ℤ) ≤ 4) ∧ (0 : ℤ) ≠ 4 := by
  refine ⟨rfl, by decide, by decide⟩

/-- C6 counterexample: a decode with a 1-entry palette (not 16)
completes and produces an image: nothing fails fast on the palette
length. -/
theorem c6_counterexample :
    decodeVobsubPicture c6palette c6stream false
      = .ok ([(9, 9, 9, 255), (9, 9, 9, 255), (9, 9, 9, 255),
              (9, 9, 9, 255)], 30) ∧
    c6palette.length ≠ 16 := by
  refine ⟨rfl, by decide⟩

/-! ## Helper lemmas -/

/-- Reduce an `Except` bind of a success (do-notation unfolding). -/
theorem exceptBind_ok {α β : Type} (a : α) (f : α → Except VErr β) :
    (Except.ok a >>= f) = f a := rfl

/-- Reduce an `Except` bind of an error (do-notation unfolding). -/
theorem exceptBind_err {α β : Type} (e : VErr) (f : α → Except VErr β) :
    ((Except.error e : Except VErr α) >>= f) = .error e := rfl

/-- `(a * 0xFF) // 0xF = a * 17` exactly (`0xFF = 0xF * 17`). -/
theorem alphaScale_eq (a : ℕ) : alphaScale a = a * 17 := by
  unfold alphaScale
  omega

/-- The scaled alpha is zero exactly for the zero nibble. -/
theorem alphaScale_eq_zero (a : ℕ) : alphaScale a = 0 ↔ a = 0 := by
  rw [alphaScale_eq]
  omega

/-- Unfolding a successful `palLookup` into its four lookups. -/
theorem palLookup_eq_some {palette : List Color} {q : Quad}
    {c0 c1 c2 c3 : Color}
    (h : palLookup palette q = some (c0, c1, c2, c3)) :
    palette[q.a0]? = some c0 ∧ palette[q.a1]? = some c1 ∧
    palette[q.a2]? = some c2 ∧ palette[q.a3]? = some c3 := by
  unfold palLookup at h
  cases h0 : palette[q.a0]? <;>
    cases h1 : palette[q.a1]? <;>
    cases h2 : palette[q.a2]? <;>
    cases h3 : palette[q.a3]? <;>
    simp only [h0, h1, h2, h3, Option.bind_eq_bind, Option.none_bind,
      Option.some_bind] at h <;>
    simp_all

/-- `invert`ing the palette map permutes a successful lookup. -/
theorem palLookup_invert (palette : List Color) (pal : Quad) :
    palLookup palette (invertPal true pal)
      = (palLookup palette pal).map
          (fun c => (c.1, c.2.2.2, c.2.2.1, c.2.1)) := by
  unfold palLookup invertPal
  simp only [if_pos rfl]
  cases h0 : palette[pal.a0]? <;>
    cases h1 : palette[pal.a1]? <;>
    cases h2 : palette[pal.a2]? <;>
    cases h3 : palette[pal.a3]? <;>
    simp [h0, h1, h2, h3]

/-- Pointwise equal actions give equal `mapPix` runs. -/
theorem mapPix_congr {f g : ℕ → Except VErr Rgba} :
    ∀ {l : List ℕ}, (∀ p ∈ l, f p = g p) → mapPix f l = mapPix g l
  | [], _ => rfl
  | p :: r, h => by
    unfold mapPix
    rw [h p (by simp), mapPix_congr (fun q hq => h q (by simp [hq]))]

/-- A successful `mapPix` maps positions pointwise. -/
theorem mapPix_get {f : ℕ → Except VErr Rgba} :
    ∀ {l : List ℕ} {out : List Rgba}, mapPix f l = .ok out →
      ∀ (k x : ℕ), l[k]? = some x → ∃ y, f x = .ok y ∧ out[k]? = some y := by
  intro l
  induction l with
  | nil => intro out _ k x hk; simp at hk
  | cons p r ih =>
    intro out h k x hk
    unfold mapPix at h
    cases hf : f p with
    | error e => rw [hf] at h; exact absurd h (by simp)
    | ok y =>
      rw [hf] at h
      cases hr : mapPix f r with
      | error e => rw [hr] at h; exact absurd h (by simp)
      | ok rest =>
        rw [hr] at h
        simp only [Except.ok.injEq] at h
        subst h
        cases k with
        | zero =>
          simp only [List.getElem?_cons_zero, Option.some.injEq] at hk
          subst hk
          exact ⟨y, hf, by simp⟩
        | succ k' =>
          simp only [List.getElem?_cons_succ] at hk
          obtain ⟨z, hz, hzout⟩ := ih hr k' x hk
          exact ⟨z, hz, by simpa using hzout⟩

/-- C7: the resolved 8-bit alpha written to the output image equals
`a * 17` for every 4-bit alpha value `a` (the code computes
`(a * 0xFF) // 0xF`), mapping 0 to 0 and 15 to 255. -/
theorem c7_alpha_scale_times17 :
    (∀ a : ℕ, a ≤ 15 → alphaScale a = a * 17) ∧
    alphaScale 0 = 0 ∧ alphaScale 15 = 255 :=
  ⟨fun a _ => alphaScale_eq a, rfl, rfl⟩

/-- Witness for C7 at the concrete alpha nibble 9. -/
theorem c7_witness : alphaScale 9 = 9 * 17 :=
  c7_alpha_scale_times17.1 9 (by decide)

/-- C6 (amended): the palette lookup of `decode_vobsub_picture`
succeeds exactly when every resolved palette index is below the
palette length — there is no 16-entry validation anywhere (`analyze_idx`
stores however many colours the `palette:` line lists, and the decoder
only fails if an index is actually out of range). -/
theorem c6_palette_lookup_iff (palette : List Color) (pal : Quad) :
    (palLookup palette pal).isSome ↔
      ∀ i : Fin 4, pal.get i < palette.length := by
  constructor
  · intro h
    rw [Option.isSome_iff_exists] at h
    obtain ⟨⟨c0, c1, c2, c3⟩, hc⟩ := h
    obtain ⟨h0, h1, h2, h3⟩ := palLookup_eq_some hc
    intro i
    fin_cases i
    · exact (List.getElem?_eq_some.mp h0).1
    · exact (List.getElem?_eq_some.mp h1).1
    · exact (List.getElem?_eq_some.mp h2).1
    · exact (List.getElem?_eq_some.mp h3).1
  · intro h
    have h0 := List.getElem?_eq_getElem (h 0)
    have h1 := List.getElem?_eq_getElem (h 1)
    have h2 := List.getElem?_eq_getElem (h 2)
    have h3 := List.getElem?_eq_getElem (h 3)
    simp only [Quad.get] at h0 h1 h2 h3
    unfold palLookup
    simp [h0, h1, h2, h3]

/-- Witness for C6's amended lookup criterion on a 1-entry palette. -/
theorem c6_lookup_witness :
    (palLookup [(⟨9, 9, 9⟩ : Color)] ⟨0, 0, 0, 0⟩).isSome :=
  (c6_palette_lookup_iff [⟨9, 9, 9⟩] ⟨0, 0, 0, 0⟩).mpr (by decide)

/-- C9: if the resolved 8-bit alpha of entry 0 is 0, the compositor
outputs the RGB of resolved palette entry 3 (with alpha 0) for every
pixel with index 0; otherwise entry 0's own colour with its scaled
alpha. -/
theorem c9_alpha0_substitution (palette : List Color) (pal alpha : Quad)
    (invert : Bool) (pixels : List ℕ) (out : List Rgba) (c0 c3 : Color)
    (h : composite palette pal alpha invert pixels = .ok out)
    (h0 : palette[(invertPal invert pal).a0]? = some c0)
    (h3 : palette[(invertPal invert pal).a3]? = some c3)
    (k : ℕ) (hk : pixels[k]? = some 0) :
    out[k]? = some (if alphaScale alpha.a0 = 0
      then (c3.red, c3.green, c3.blue, 0)
      else (c0.red, c0.green, c0.blue, alphaScale alpha.a0)) := by
  unfold composite at h
  cases hp : palLookup palette (invertPal invert pal) with
  | none => rw [hp] at h; exact absurd h (by simp)
  | some c =>
    obtain ⟨d0, d1, d2, d3⟩ := c
    rw [hp] at h
    obtain ⟨e0, _, _, e3⟩ := palLookup_eq_some hp
    rw [h0] at e0
    rw [h3] at e3
    simp only [Option.some.injEq] at e0 e3
    subst e0; subst e3
    obtain ⟨y, hy, hout⟩ := mapPix_get h k 0 hk
    have hy' : y = ((if alphaScale alpha.a0 = 0 then c3 else c0).red,
        (if alphaScale alpha.a0 = 0 then c3 else c0).green,
        (if alphaScale alpha.a0 = 0 then c3 else c0).blue,
        alphaScale alpha.a0) := by
      have hy2 : Except.ok ((if alphaScale alpha.a0 = 0 then c3 else c0).red,
          (if alphaScale alpha.a0 = 0 then c3 else c0).green,
          (if alphaScale alpha.a0 = 0 then c3 else c0).blue,
          alphaScale alpha.a0) = (Except.ok y : Except VErr Rgba) := hy
      simpa using hy2.symm
    rw [hout, hy']
    by_cases hz : alphaScale alpha.a0 = 0 <;> simp [hz]

/-- Witness for C9: a 4-entry palette, entry 0 fully transparent,
single pixel of index 0: the output takes entry 3's RGB with alpha 0. -/
theorem c9_witness :
    ([((12 : ℕ), (11 : ℕ), (10 : ℕ), (0 : ℕ))] : List Rgba)[0]?
      = some (if alphaScale 0 = 0
        then ((12 : ℕ), (11 : ℕ), (10 : ℕ), (0 : ℕ))
        else (1, 2, 3, alphaScale 0)) := by
  have := c9_alpha0_substitution
    [⟨1, 2, 3⟩, ⟨4, 5, 6⟩, ⟨7, 8, 9⟩, ⟨12, 11, 10⟩]
    ⟨0, 1, 2, 3⟩ ⟨0, 15, 15, 15⟩ false [0] [(12, 11, 10, 0)]
    ⟨1, 2, 3⟩ ⟨12, 11, 10⟩ rfl rfl rfl 0 rfl
  simpa using this

/-- C8 counterexample: with resolved alpha entry 0 fully transparent
and a pixel buffer using only index 0, `invert=True` and
`invert=False` give different RGBA images — the transparent-entry-0
substitution takes slot 3's RGB, and the invert swap changes which
colour sits in slot 3. -/
theorem c8_counterexample :
    (∀ p ∈ [(0 : ℕ)], p = 0 ∨ p = 2) ∧
    composite c8palette ⟨0, 1, 2, 3⟩ ⟨0, 15, 15, 15⟩ true [0]
      = .ok [(255, 0, 0, 0)] ∧
    composite c8palette ⟨0, 1, 2, 3⟩ ⟨0, 15, 15, 15⟩ false [0]
      = .ok [(0, 0, 255, 0)] ∧
    ((255, 0, 0, 0) : Rgba) ≠ (0, 0, 255, 0) := by
  refine ⟨by decide, rfl, rfl, by decide⟩

/-- C8 (amended): `invert` swaps palette slots 1 and 3 (slots 0 and 2
unchanged), and for a pixel buffer using only indices 0 and 2 the two
runs produce identical images provided the resolved alpha of entry 0
is nonzero (otherwise index-0 pixels borrow slot 3's RGB, which the
swap changes). -/
theorem c8_invert_amended (palette : List Color) (pal alpha : Quad)
    (pixels : List ℕ)
    (hpix : ∀ p ∈ pixels, p = 0 ∨ p = 2) (ha : alpha.a0 ≠ 0) :
    composite palette pal alpha true pixels
      = composite palette pal alpha false pixels ∧
    invertPal true pal = ⟨pal.a0, pal.a3, pal.a2, pal.a1⟩ ∧
    (invertPal true pal).a0 = pal.a0 ∧ (invertPal true pal).a2 = pal.a2 := by
  refine ⟨?_, rfl, rfl, rfl⟩
  have hz : ¬(alphaScale alpha.a0 = 0) := by
    rw [alphaScale_eq_zero]; exact ha
  unfold composite
  rw [palLookup_invert]
  have hfalse : invertPal false pal = pal := rfl
  rw [hfalse]
  cases hp : palLookup palette pal with
  | none => rfl
  | some c =>
    obtain ⟨d0, d1, d2, d3⟩ := c
    simp only [Option.map_some']
    apply mapPix_congr
    intro p hp'
    rcases hpix p hp' with h0 | h2
    · subst h0
      simp [hz]
    · subst h2
      rfl

/-- Witness for C8's amended claim: pixels `[0, 2]`, nonzero alpha 0. -/
theorem c8_witness :
    composite c8palette ⟨0, 1, 2, 3⟩ ⟨3, 15, 15, 15⟩ true [0, 2]
      = composite c8palette ⟨0, 1, 2, 3⟩ ⟨3, 15, 15, 15⟩ false [0, 2] :=
  (c8_invert_amended c8palette ⟨0, 1, 2, 3⟩ ⟨3, 15, 15, 15⟩ [0, 2]
    (by decide) (by decide)).1

/-- Inversion of a successful `Except` bind. -/
theorem exceptBind_eq_ok {α β : Type} {ma : Except VErr α}
    {f : α → Except VErr β} {b : β} :
    (ma >>= f) = .ok b ↔ ∃ a, ma = .ok a ∧ f a = .ok b := by
  cases ma <;> simp [exceptBind_ok, exceptBind_err]

/-- A single scan step either leaves `delay` and `col_alpha_update`
unchanged, or (command 7) sets `col_alpha_update`. -/
theorem scanStep_delay (hdr : List ℕ) (rel : ℕ) (ctrlSize : ℤ)
    (s s' : ScanState) (brk : Bool)
    (h : scanStep hdr rel ctrlSize s = .ok (s', brk)) :
    (s'.colAlphaUpdate = s.colAlphaUpdate ∧ s'.delay = s.delay) ∨
    s'.colAlphaUpdate = true := by
  unfold scanStep at h
  rw [exceptBind_eq_ok] at h
  obtain ⟨cmd, hc, h⟩ := h
  split at h
  · -- cmd 0
    left
    simp only [pure, Except.pure, Except.ok.injEq, Prod.mk.injEq] at h
    rw [← h.1]; exact ⟨rfl, rfl⟩
  · -- cmd 1
    left
    simp only [pure, Except.pure, Except.ok.injEq, Prod.mk.injEq] at h
    rw [← h.1]; exact ⟨rfl, rfl⟩
  · -- cmd 3
    left
    rw [exceptBind_eq_ok] at h
    obtain ⟨t1, _, h⟩ := h
    rw [exceptBind_eq_ok] at h
    obtain ⟨t2, _, h⟩ := h
    simp only [pure, Except.pure, Except.ok.injEq, Prod.mk.injEq] at h
    rw [← h.1]; exact ⟨rfl, rfl⟩
  · -- cmd 4
    left
    rw [exceptBind_eq_ok] at h
    obtain ⟨t1, _, h⟩ := h
    rw [exceptBind_eq_ok] at h
    obtain ⟨t2, _, h⟩ := h
    simp only [pure, Except.pure, Except.ok.injEq, Prod.mk.injEq] at h
    rw [← h.1]; exact ⟨rfl, rfl⟩
  · -- cmd 5
    left
    rw [exceptBind_eq_ok] at h
    obtain ⟨ta, _, h⟩ := h
    rw [exceptBind_eq_ok] at h
    obtain ⟨tb, _, h⟩ := h
    rw [exceptBind_eq_ok] at h
    obtain ⟨tc, _, h⟩ := h
    rw [exceptBind_eq_ok] at h
    obtain ⟨td, _, h⟩ := h
    rw [exceptBind_eq_ok] at h
    obtain ⟨te, _, h⟩ := h
    rw [exceptBind_eq_ok] at h
    obtain ⟨tf, _, h⟩ := h
    simp only [pure, Except.pure, Except.ok.injEq, Prod.mk.injEq] at h
    rw [← h.1]; exact ⟨rfl, rfl⟩
  · -- cmd 6
    left
    rw [exceptBind_eq_ok] at h
    obtain ⟨e, _, h⟩ := h
    rw [exceptBind_eq_ok] at h
    obtain ⟨o, _, h⟩ := h
    simp only [pure, Except.pure, Except.ok.injEq, Prod.mk.injEq] at h
    rw [← h.1]; exact ⟨rfl, rfl⟩
  · -- cmd 7
    right
    rw [exceptBind_eq_ok] at h
    obtain ⟨u1, _, h⟩ := h
    rw [exceptBind_eq_ok] at h
    obtain ⟨u2, _, h⟩ := h
    dsimp only at h
    split at h
    · -- update adopted
      rw [exceptBind_eq_ok] at h
      obtain ⟨p1, _, h⟩ := h
      rw [exceptBind_eq_ok] at h
      obtain ⟨p2, _, h⟩ := h
      rw [exceptBind_eq_ok] at h
      obtain ⟨y, hy, h⟩ := h
      rw [exceptBind_eq_ok] at h
      obtain ⟨d, _, h⟩ := h
      rw [exceptBind_eq_ok] at h
      obtain ⟨e2, _, h⟩ := h
      simp only [pure, Except.pure, Except.ok.injEq] at hy
      subst hy
      simp only [pure, Except.pure, Except.ok.injEq, Prod.mk.injEq] at h
      rw [← h.1]
    · -- update ignored
      rw [exceptBind_eq_ok] at h
      obtain ⟨y, hy, h⟩ := h
      rw [exceptBind_eq_ok] at h
      obtain ⟨d, _, h⟩ := h
      rw [exceptBind_eq_ok] at h
      obtain ⟨e2, _, h⟩ := h
      simp only [pure, Except.pure, Except.ok.injEq] at hy
      subst hy
      simp only [pure, Except.pure, Except.ok.injEq, Prod.mk.injEq] at h
      rw [← h.1]
  · -- cmd 0xFF: break
    left
    simp only [pure, Except.pure, Except.ok.injEq, Prod.mk.injEq] at h
    rw [← h.1]; exact ⟨rfl, rfl⟩
  · -- unknown command: warning only
    left
    simp only [pure, Except.pure, Except.ok.injEq, Prod.mk.injEq] at h
    rw [← h.1]; exact ⟨rfl, rfl⟩

/-- `col_alpha_update` is monotone along the scan. -/
theorem scanLoop_cau (hdr : List ℕ) (rel : ℕ) (ctrlSize : ℤ) :
    ∀ (fuel : ℕ) (s s' : ScanState),
      scanLoop hdr rel ctrlSize fuel s = .ok s' →
      s.colAlphaUpdate = true → s'.colAlphaUpdate = true := by
  intro fuel
  induction fuel with
  | zero => intro s s' h; exact absurd h (by simp [scanLoop])
  | succ n ih =>
    intro s s' h hs
    unfold scanLoop at h
    split at h
    · rw [exceptBind_eq_ok] at h
      obtain ⟨⟨s1, brk⟩, hstep, h⟩ := h
      dsimp only at h
      have h1 : s1.colAlphaUpdate = true := by
        rcases scanStep_delay hdr rel ctrlSize s s1 brk hstep with hkeep | hset
        · rw [hkeep.1, hs]
        · exact hset
      cases brk with
      | true =>
        rw [if_pos rfl] at h
        simp only [pure, Except.pure, Except.ok.injEq] at h
        subst h
        exact h1
      | false =>
        simp only [Bool.false_eq_true, if_false] at h
        exact ih s1 s' h h1
    · simp only [pure, Except.pure, Except.ok.injEq] at h
      subst h
      exact hs

/-- Along a successful scan, if `col_alpha_update` ends up `false`,
no command 7 ever ran, so `delay` is unchanged. -/
theorem scanLoop_delay (hdr : List ℕ) (rel : ℕ) (ctrlSize : ℤ) :
    ∀ (fuel : ℕ) (s s' : ScanState),
      scanLoop hdr rel ctrlSize fuel s = .ok s' →
      s'.colAlphaUpdate = false → s'.delay = s.delay := by
  intro fuel
  induction fuel with
  | zero => intro s s' h; exact absurd h (by simp [scanLoop])
  | succ n ih =>
    intro s s' h hf
    unfold scanLoop at h
    split at h
    · rw [exceptBind_eq_ok] at h
      obtain ⟨⟨s1, brk⟩, hstep, h⟩ := h
      dsimp only at h
      rcases scanStep_delay hdr rel ctrlSize s s1 brk hstep with hkeep | hset
      · cases brk with
        | true =>
          rw [if_pos rfl] at h
          simp only [pure, Except.pure, Except.ok.injEq] at h
          subst h
          rw [hkeep.2]
        | false =>
          simp only [Bool.false_eq_true, if_false] at h
          rw [ih s1 s' h hf, hkeep.2]
      · cases brk with
        | true =>
          rw [if_pos rfl] at h
          simp only [pure, Except.pure, Except.ok.injEq] at h
          subst h
          rw [hset] at hf
          exact absurd hf (by simp)
        | false =>
          simp only [Bool.false_eq_true, if_false] at h
          -- once set, `col_alpha_update` can only stay or be re-set
          exact absurd (scanLoop_cau hdr rel ctrlSize n s1 s' h hset) (by simp [hf])
    · simp only [pure, Except.pure, Except.ok.injEq] at h
      subst h
      rfl


/-- C10: when the command scan ends with the end-sequence pointer equal
to `ctrl_size` and no command 7 ran, `decode_vobsub_picture` only warns
("Duration information not found") and returns the sentinel delay
`-1`, so the caller emits an event with `end = start + (-1)`, strictly
before its start. -/
theorem c10_missing_duration (hdr : List ℕ) (rel : ℕ) (ctrlSize : ℤ)
    (st : ScanState)
    (h : ctrlScanFull hdr rel ctrlSize = .ok st)
    (hend : st.endSeq = ctrlSize)
    (hno : st.colAlphaUpdate = false) :
    resolveDelay hdr rel ctrlSize st = .ok (-1) ∧
    ∀ startMs : ℤ, eventEnd startMs (-1) = startMs + (-1) ∧
      eventEnd startMs (-1) < startMs := by
  unfold ctrlScanFull at h
  rw [exceptBind_eq_ok] at h
  obtain ⟨w, hw, h⟩ := h
  have hdelay : st.delay = -1 :=
    scanLoop_delay hdr rel ctrlSize (ctrlSize.toNat + 2)
      (scanInit (clampEndSeq ctrlSize ((w : ℤ) - rel - 2))) st h hno
  constructor
  · unfold resolveDelay
    rw [if_neg (by rw [hend]; exact fun hne => hne rfl)]
    rw [hdelay]
    rfl
  · intro startMs
    unfold eventEnd
    omega

/-- Witness for C10: a 4-byte control header whose end-sequence pointer
clamps to `ctrl_size` and whose first command is `0xFF`. -/
theorem c10_witness :
    resolveDelay c10hdr 4 4 c10state = .ok (-1) ∧
    eventEnd 5000 (-1) < 5000 := by
  have h := c10_missing_duration c10hdr 4 4 c10state rfl rfl rfl
  exact ⟨h.1, (h.2 5000).2⟩

/-- The control-copy loop: starting within budget with a buffer holding
exactly the copied bytes, it stays within budget and the buffer tracks
the count. -/
theorem copyCtrl_le (stream : ByteStream) (ctrlOfs : ℤ) (copiedInit : ℕ)
    (ctrlSize : ℤ) :
    ∀ (n i copied : ℕ) (l : List ℕ) (res : ℕ × Option (List ℕ)),
      copyCtrl stream ctrlOfs copiedInit ctrlSize n i copied (some l)
        = .ok res →
      (copied : ℤ) ≤ ctrlSize → l.length = copied →
      (res.1 : ℤ) ≤ ctrlSize ∧
      ∃ l', res.2 = some l' ∧ l'.length = res.1 := by
  intro n
  induction n with
  | zero =>
    intro i copied l res h hle hlen
    unfold copyCtrl at h
    simp only [Except.ok.injEq] at h
    subst h
    exact ⟨hle, l, rfl, hlen⟩
  | succ m ih =>
    intro i copied l res h hle hlen
    unfold copyCtrl at h
    split at h
    · rw [exceptBind_eq_ok] at h
      obtain ⟨b, _, h⟩ := h
      exact ih (i + 1) (copied + 1) (l ++ [b]) res h (by omega)
        (by simp [hlen])
    · exact ih (i + 1) copied l res h hle hlen

/-- When the budget is already exhausted (or was never declared), the
copy loop changes nothing. -/
theorem copyCtrl_stuck (stream : ByteStream) (ctrlOfs : ℤ)
    (copiedInit : ℕ) (ctrlSize : ℤ) :
    ∀ (n i copied : ℕ) (buf : Option (List ℕ)),
      ¬((copied : ℤ) < ctrlSize) →
      copyCtrl stream ctrlOfs copiedInit ctrlSize n i copied buf
        = .ok (copied, buf) := by
  intro n
  induction n with
  | zero => intro i copied buf _; rfl
  | succ m ih =>
    intro i copied buf hge
    unfold copyCtrl
    rw [if_neg hge]
    exact ih (i + 1) copied buf hge

/-- The final padding (lines 397-402) brings a within-budget buffer to
exactly `ctrl_size` bytes. -/
theorem padCtrl_len (ctrlSize : ℤ) (copied : ℕ) (l : List ℕ)
    (h0 : 0 ≤ ctrlSize) (h1 : (copied : ℤ) ≤ ctrlSize)
    (h2 : l.length = copied) :
    (padCtrl ctrlSize copied l).length = ctrlSize.toNat := by
  unfold padCtrl
  split
  · simp only [List.length_append, List.length_replicate, h2]
    omega
  · rename_i heq
    simp only [ne_eq, Decidable.not_not] at heq
    rw [h2]
    omega

/-- One assembler iteration preserves `AsmInv`, provided it is not a
second first-pack packet (when a first pack was already found, the
packet parsed at the current offset does not carry the first-pack flag
with a full PTS).  Without that proviso the invariant fails: the
first-pack branch replaces `ctrl_header` by a fresh buffer without
resetting `ctrl_header_copied` (see `c5_counterexample`). -/
theorem asmIter_inv (stream : ByteStream) (st st' : AsmState)
    (ph : PacketHead)
    (hph : parsePacketHead stream st.ofs = .ok ph)
    (hsingle : st.firstPackFound = true →
      ¬(ph.firstPack = true ∧ 5 ≤ ph.ptsLength))
    (hinv : AsmInv st)
    (h : asmIter stream st = .ok st') : AsmInv st' := by
  unfold asmIter at h
  rw [exceptBind_eq_ok] at h
  obtain ⟨ph', hph', h⟩ := h
  rw [hph] at hph'
  simp only [Except.ok.injEq] at hph'
  subst hph'
  try dsimp only at h
  split at h
  · -- first-pack branch taken
    rename_i hcond
    have hfp : st.firstPackFound = false := by
      cases hb : st.firstPackFound
      · rfl
      · exact absurd hcond (hsingle hb)
    obtain ⟨hc0, hcs, hch⟩ := hinv.2 hfp
    rw [exceptBind_eq_ok] at h
    obtain ⟨size, hsize, h⟩ := h
    rw [exceptBind_eq_ok] at h
    obtain ⟨rel, hrel, h⟩ := h
    try dsimp only at h
    split at h
    · -- negative control size: raises
      rw [exceptBind_eq_ok] at h
      obtain ⟨y, hy, _⟩ := h
      exact absurd hy (by simp [throw, throwThe, MonadExceptOf.throw])
    · rename_i hpos
      rw [exceptBind_eq_ok] at h
      obtain ⟨y, hy, h⟩ := h
      simp only [pure, Except.pure, Except.ok.injEq] at hy
      subst hy
      try dsimp only at h
      rw [exceptBind_eq_ok] at h
      obtain ⟨⟨copied, buf⟩, hcopy, h⟩ := h
      try dsimp only at h
      rw [hc0] at hcopy
      obtain ⟨hle, l', hl', hlen⟩ :=
        copyCtrl_le stream _ _ _ _ _ _ ([] : List ℕ) _ hcopy
          (by omega) rfl
      split at h
      · exact absurd h (by simp [throw, throwThe, MonadExceptOf.throw])
      · simp only [pure, Except.pure, Except.ok.injEq] at h
        subst h
        constructor
        · intro _
          refine ⟨?_, hle, l', hl', hlen⟩
          show (0 : ℤ) ≤ (size : ℤ) - rel - 2
          omega
        · intro hbad
          simp at hbad
  · -- no new first pack
    split at h
    · -- a first pack was already found: only ctrl_ofs moves
      rename_i hfp
      obtain ⟨hc0, hcs, l, hch, hlen⟩ := hinv.1 hfp
      rw [exceptBind_eq_ok] at h
      obtain ⟨y, hy, h⟩ := h
      simp only [pure, Except.pure, Except.ok.injEq] at hy
      subst hy
      try dsimp only at h
      rw [exceptBind_eq_ok] at h
      obtain ⟨⟨copied, buf⟩, hcopy, h⟩ := h
      try dsimp only at h
      rw [hch] at hcopy
      obtain ⟨hle, l', hl', hlen'⟩ :=
        copyCtrl_le stream _ _ _ _ _ _ l _ hcopy hcs hlen
      split at h
      · exact absurd h (by simp [throw, throwThe, MonadExceptOf.throw])
      · simp only [pure, Except.pure, Except.ok.injEq] at h
        subst h
        constructor
        · intro _
          exact ⟨hc0, hle, l', hl', hlen'⟩
        · intro hbad
          simp only at hbad
          rw [hfp] at hbad
          exact absurd hbad (by simp)
    · -- skipped invalid fragment
      rename_i hfp
      have hfp' : st.firstPackFound = false := by
        cases hb : st.firstPackFound
        · rfl
        · exact absurd hb hfp
      obtain ⟨hc0, hcs, hch⟩ := hinv.2 hfp'
      rw [exceptBind_eq_ok] at h
      obtain ⟨y, hy, h⟩ := h
      simp only [pure, Except.pure, Except.ok.injEq] at hy
      subst hy
      try dsimp only at h
      rw [exceptBind_eq_ok] at h
      obtain ⟨⟨copied, buf⟩, hcopy, h⟩ := h
      try dsimp only at h
      rw [copyCtrl_stuck stream _ _ _ _ _ _ _ (by rw [hc0, hcs]; omega)]
        at hcopy
      simp only [Except.ok.injEq, Prod.mk.injEq] at hcopy
      obtain ⟨hcop, hbuf⟩ := hcopy
      split at h
      · exact absurd h (by simp [throw, throwThe, MonadExceptOf.throw])
      · simp only [pure, Except.pure, Except.ok.injEq] at h
        subst h
        constructor
        · intro hbad
          simp only at hbad
          rw [hfp'] at hbad
          exact absurd hbad (by simp)
        · intro _
          exact ⟨by rw [← hcop, hc0], hcs, by rw [← hbuf, hch]⟩

/-- C5 (amended): as long as the first-pack branch runs at most once
(every iteration from a state with a declared `ctrl_size` parses a
packet without the first-pack flag), the loop never copies more than
the declared `ctrl_size` control bytes, and at loop exit the
`0xFF`-padding brings the assembled control header to exactly
`ctrl_size` bytes.  (A repeated first-pack packet breaks both parts:
see the counterexample.) -/
theorem c5_amended :
    (∀ (stream : ByteStream) (st st' : AsmState) (ph : PacketHead),
       parsePacketHead stream st.ofs = .ok ph →
       (st.firstPackFound = true →
         ¬(ph.firstPack = true ∧ 5 ≤ ph.ptsLength)) →
       AsmInv st → asmIter stream st = .ok st' → AsmInv st') ∧
    (∀ (st : AsmState) (l : List ℕ),
       AsmInv st → st.firstPackFound = true → st.ctrlHeader = some l →
       (st.ctrlHeaderCopied : ℤ) ≤ st.ctrlSize ∧
       (padCtrl st.ctrlSize st.ctrlHeaderCopied l).length
         = st.ctrlSize.toNat) := by
  constructor
  · exact fun stream st st' ph hph hs hi h =>
      asmIter_inv stream st st' ph hph hs hi h
  · intro st l hi hfp hch
    obtain ⟨hc0, hcs, l0, hch0, hlen⟩ := hi.1 hfp
    rw [hch] at hch0
    simp only [Option.some.injEq] at hch0
    subst hch0
    exact ⟨hcs, padCtrl_len _ _ _ hc0 hcs hlen⟩

/-- Witness for C5's amended claim: one honest iteration on `c6stream`
preserves the invariant. -/
theorem c5_witness : AsmInv c5wit1 :=
  c5_amended.1 c6stream asmInit c5wit1 c6ph rfl
    (fun hbad => absurd hbad (by decide))
    ⟨fun hbad => absurd hbad (by decide), fun _ => ⟨rfl, rfl, rfl⟩⟩
    rfl

/-- Filling exactly the rest of the row (`length = width - x`) lands
the cursor at the start of the next interlaced row. -/
theorem writeRun_rowfill (width : ℤ) (col : ℕ) :
    ∀ (n : ℕ) (s : LineState), 0 ≤ s.x → s.x < width →
      n = (width - s.x).toNat →
      (writeRun width col n s).trgOfs = s.trgOfs + 2 * width ∧
      (writeRun width col n s).x = 0 := by
  intro n
  induction n with
  | zero =>
    intro s hx0 hx1 hn
    exact absurd hn.symm (by omega)
  | succ m ih =>
    intro s hx0 hx1 hn
    unfold writeRun
    dsimp only
    split
    · rename_i hwrap
      have hm : m = 0 := by omega
      subst hm
      have hx : s.x = width - 1 := by omega
      unfold writeRun
      constructor <;> rfl
    · rename_i hnowrap
      have := ih { s with writes := (s.trgOfs + s.x, col) :: s.writes,
                          x := s.x + 1 }
        (by dsimp only; omega) (by dsimp only; omega) (by dsimp only; omega)
      exact this

/-- The run-emission loop preserves the decode-loop invariant. -/
theorem writeRun_inv (width : ℤ) (hw : 1 ≤ width) (col : ℕ) :
    ∀ (n : ℕ) (s : LineState), LineInv width s →
      LineInv width (writeRun width col n s) := by
  intro n
  induction n with
  | zero => intro s hs; exact hs
  | succ m ih =>
    intro s hs
    obtain ⟨hx0, hx1, hch, hbd⟩ := hs
    unfold writeRun
    dsimp only
    have hch' : ((s.trgOfs + s.x, col) :: s.writes).Chain'
        (fun a b => b.1 < a.1) := by
      rw [List.chain'_cons']
      refine ⟨?_, hch⟩
      intro y hy
      exact hbd y (List.mem_of_mem_head? hy)
    split
    · rename_i hwrap
      apply ih
      refine ⟨?_, ?_, hch', ?_⟩
      · show (0 : ℤ) ≤ 0
        omega
      · show (0 : ℤ) < width
        omega
      · intro p hp
        show p.1 < s.trgOfs + 2 * width + 0
        rcases List.mem_cons.mp hp with rfl | hp2
        · show s.trgOfs + s.x < s.trgOfs + 2 * width + 0
          omega
        · have := hbd p hp2
          omega
    · rename_i hnowrap
      apply ih
      refine ⟨?_, ?_, hch', ?_⟩
      · show (0 : ℤ) ≤ s.x + 1
        omega
      · show s.x + 1 < width
        omega
      · intro p hp
        show p.1 < s.trgOfs + (s.x + 1)
        rcases List.mem_cons.mp hp with rfl | hp2
        · show s.trgOfs + s.x < s.trgOfs + (s.x + 1)
          omega
        · have := hbd p hp2
          omega

/-- Updating only `index` and `sumPixels` keeps the invariant. -/
theorem LineInv_update (width : ℤ) (s : LineState) (i : ℕ) (q : ℚ)
    (hs : LineInv width s) :
    LineInv width { s with index := i, sumPixels := q } := hs

/-- One iteration of the decode loop preserves the invariant (the
loop guard `sum_pixels < max_pixels` is part of the hypothesis; under
it and `width ≥ 1` the line-feed fallback branch is unreachable). -/
theorem lineBody_inv (nibbles : List ℕ) (width maxPixels : ℤ)
    (hw : 1 ≤ width) (s s' : LineState)
    (hs : LineInv width s) (hguard : s.sumPixels < (maxPixels : ℚ))
    (h : lineBody nibbles width maxPixels s = .ok s') :
    LineInv width s' := by
  unfold lineBody at h
  rw [exceptBind_eq_ok] at h
  obtain ⟨t0, _, h⟩ := h
  split at h
  · -- three or four nibble code
    rw [exceptBind_eq_ok] at h
    obtain ⟨t1, _, h⟩ := h
    split at h
    · -- three byte code
      rw [exceptBind_eq_ok] at h
      obtain ⟨t2, _, h⟩ := h
      simp only [pure, Except.pure, Except.ok.injEq] at h
      subst h
      unfold finishRun
      exact writeRun_inv width hw _ _ _ (LineInv_update width s _ _ hs)
    · -- line feed or four nibble code
      rw [exceptBind_eq_ok] at h
      obtain ⟨t2, _, h⟩ := h
      rw [exceptBind_eq_ok] at h
      obtain ⟨t3, _, h⟩ := h
      try dsimp only at h
      split at h
      · -- line feed
        try dsimp only at h
        split at h
        · -- row full or budget reached: unreachable here
          rename_i hdead
          exfalso
          obtain ⟨hx0, hx1, _, _⟩ := hs
          rcases hdead with h1 | h2
          · omega
          · exact absurd hguard (not_lt.mpr h2)
        · simp only [pure, Except.pure, Except.ok.injEq] at h
          subst h
          unfold finishRun
          exact writeRun_inv width hw _ _ _ (LineInv_update width s _ _ hs)
      · simp only [pure, Except.pure, Except.ok.injEq] at h
        subst h
        unfold finishRun
        exact writeRun_inv width hw _ _ _ (LineInv_update width s _ _ hs)
  · -- one or two nibble code
    try dsimp only at h
    split at h
    · -- two nibble code
      rw [exceptBind_eq_ok] at h
      obtain ⟨t1, _, h⟩ := h
      simp only [pure, Except.pure, Except.ok.injEq] at h
      subst h
      unfold finishRun
      exact writeRun_inv width hw _ _ _ (LineInv_update width s _ _ hs)
    · simp only [pure, Except.pure, Except.ok.injEq] at h
      subst h
      unfold finishRun
      exact writeRun_inv width hw _ _ _ (LineInv_update width s _ _ hs)

/-- The whole decode loop preserves the invariant. -/
theorem lineLoop_inv (nibbles : List ℕ) (width maxPixels : ℤ)
    (hw : 1 ≤ width) :
    ∀ (fuel : ℕ) (s s' : LineState), LineInv width s →
      lineLoop nibbles width maxPixels fuel s = .ok s' →
      LineInv width s' := by
  intro fuel
  induction fuel with
  | zero => intro s s' _ h; exact absurd h (by simp [lineLoop])
  | succ n ih =>
    intro s s' hs h
    unfold lineLoop at h
    split at h
    · rename_i hguard
      rw [exceptBind_eq_ok] at h
      obtain ⟨s1, hstep, h⟩ := h
      exact ih s1 s' (lineBody_inv nibbles width maxPixels hw s s1 hs
        hguard.2 hstep) h
    · simp only [pure, Except.pure, Except.ok.injEq] at h
      subst h
      exact hs

/-- A strictly decreasing write log has at most `width` entries inside
any aligned row interval `[r*width, (r+1)*width)`. -/
theorem desc_rowCount_le (width : ℤ)
    (l : List (ℤ × ℕ)) (hch : l.Chain' (fun a b => b.1 < a.1)) (r : ℤ) :
    rowCount width r l ≤ width.toNat := by
  haveI : IsTrans (ℤ × ℕ) (fun a b => b.1 < a.1) :=
    ⟨fun _ _ _ h1 h2 => lt_trans h2 h1⟩
  have hpw : l.Pairwise (fun a b => b.1 < a.1) :=
    List.chain'_iff_pairwise.mp hch
  unfold rowCount
  rw [List.countP_eq_length_filter]
  set pred := fun p : ℤ × ℕ =>
    decide (r * width ≤ p.1 ∧ p.1 < (r + 1) * width) with hpred
  have hpf : (l.filter pred).Pairwise (fun a b => b.1 < a.1) :=
    hpw.filter pred
  have hmap : ((l.filter pred).map Prod.fst).Pairwise (fun a b => b < a) :=
    List.pairwise_map.mpr hpf
  have hnd : ((l.filter pred).map Prod.fst).Nodup :=
    hmap.imp fun hlt => ne_of_gt hlt
  have hsub : ((l.filter pred).map Prod.fst).toFinset
      ⊆ Finset.Ico (r * width) ((r + 1) * width) := by
    intro z hz
    rw [List.mem_toFinset, List.mem_map] at hz
    obtain ⟨p, hp, hpz⟩ := hz
    rw [List.mem_filter, hpred] at hp
    rw [Finset.mem_Ico]
    have := of_decide_eq_true hp.2
    rw [← hpz]
    exact this
  have hcard : ((l.filter pred).map Prod.fst).toFinset.card
      = (l.filter pred).length := by
    rw [List.toFinset_card_of_nodup hnd, List.length_map]
  calc (l.filter pred).length
      = ((l.filter pred).map Prod.fst).toFinset.card := hcard.symm
    _ ≤ (Finset.Ico (r * width) ((r + 1) * width)).card :=
        Finset.card_le_card hsub
    _ = ((r + 1) * width - r * width).toNat := Int.card_Ico _ _
    _ = width.toNat := by ring_nf

/-- C3: an explicit line-feed code (four-nibble code with extended
length 0) hit before the current row is full moves the target offset
to the next interlaced row (`+2*width`) and resets the horizontal
cursor to 0; consequently, over any input buffer, `decode_vobsub_line`
never writes more than `width` pixels into a single row. -/
theorem c3_linefeed_and_row_bound (width : ℤ) (hw : 1 ≤ width) :
    (∀ (nibbles : List ℕ) (maxPixels : ℤ) (s : LineState)
       (t1 t2 t3 : ℕ),
       0 ≤ s.x → s.x < width → s.sumPixels < (maxPixels : ℚ) →
       nibGet nibbles s.index = .ok 0 →
       nibGet nibbles (s.index + 1) = .ok t1 →
       nibGet nibbles (s.index + 1 + 1) = .ok t2 →
       nibGet nibbles (s.index + 1 + 1 + 1) = .ok t3 →
       t1 &&& 0xC = 0 →
       (t1 <<< 6) ||| (t2 <<< 2) ||| (t3 >>> 2) = 0 →
       ∃ s', lineBody nibbles width maxPixels s = .ok s' ∧
         s'.trgOfs = s.trgOfs + 2 * width ∧ s'.x = 0) ∧
    (∀ (nibbles : List ℕ) (maxPixels trg0 : ℤ) (out : LineState),
       runLine nibbles width maxPixels trg0 = .ok out →
       ∀ r : ℤ, rowCount width r out.writes ≤ width.toNat) := by
  constructor
  · intro nibbles maxPixels s t1 t2 t3 hx0 hx1 hguard h0 h1 h2 h3 hc hlen
    unfold lineBody
    rw [h0, exceptBind_ok]
    rw [if_pos rfl]
    rw [h1, exceptBind_ok]
    rw [if_neg (by simp [hc])]
    rw [h2, exceptBind_ok]
    rw [h3, exceptBind_ok]
    dsimp only
    rw [if_pos hlen]
    rw [if_neg (by push_neg; exact ⟨by omega, hguard⟩)]
    refine ⟨_, rfl, ?_⟩
    have := writeRun_rowfill width (t3 &&& 0x3)
      ((width - s.x).toNat)
      { s with
        index := if (s.index + 1 + 1 + 2) % 2 = 1
          then s.index + 1 + 1 + 2 + 1 else s.index + 1 + 1 + 2
        sumPixels := s.sumPixels + ((width - s.x : ℤ) : ℚ) }
      (by dsimp only; omega) (by dsimp only; omega) (by dsimp only)
    unfold finishRun
    exact ⟨this.1, this.2⟩
  · intro nibbles maxPixels trg0 out h r
    have hinit : LineInv width (lineInit trg0) := by
      refine ⟨?_, ?_, ?_, ?_⟩
      · show (0 : ℤ) ≤ 0
        omega
      · show (0 : ℤ) < width
        omega
      · exact List.chain'_nil
      · intro p hp
        simp [lineInit] at hp
    have hinv : LineInv width out :=
      lineLoop_inv nibbles width maxPixels hw (nibbles.length + 1)
        (lineInit trg0) out hinit h
    exact desc_rowCount_le width out.writes hinv.2.2.1 r

/-- Witness for C3: nibble buffer `[0,0,0,3]` (a line-feed code) at
width 4: the cursor jumps to the next interlaced row (`trg_ofs` 0 → 8)
and `x` resets to 0. -/
theorem c3_witness :
    (lineBody [0, 0, 0, 3] 4 8 (lineInit 0)).toOption.map
        (fun s => (s.trgOfs, s.x)) = some ((lineInit 0).trgOfs + 2 * 4, 0) := by
  obtain ⟨s', h1, h2, h3⟩ :=
    (c3_linefeed_and_row_bound 4 (by omega)).1 [0, 0, 0, 3] 8 (lineInit 0)
      0 0 3 (by decide) (by decide) (by decide)
      rfl rfl rfl rfl (by decide) (by decide)
  rw [h1]
  simp only [Except.toOption, Option.map_some']
  rw [h2, h3]
